import Mathlib

/- Verification of the vcode macro execution engine (src/macro/MacroExecutor.ts).

   Shallow embedding conventions:
   - JavaScript strings are modelled as lists of characters (`Str`);
   - JavaScript exceptions are modelled with `Except Str`, a thrown error
     being represented by its message text;
   - the results of the external effects the executor consults (workspace
     configuration reads, the host JavaScript parser and evaluator, the
     Python subprocess) are supplied by an explicit environment record
     `Env`, so every execution is a pure function of the environment. -/

deriving instance DecidableEq for Except

namespace VCode

/-- JavaScript strings, modelled as lists of characters. -/
abbrev Str := List Char

/-- The whitespace class used by String.prototype.trim and by the regex
    class \s (the common ASCII whitespace characters; exotic Unicode space
    code points are not modelled). -/
def jsSpace (c : Char) : Bool :=
  c = ' ' || c = '\t' || c = '\n' || c = '\r' || c = '\x0b' || c = '\x0c'

/-- JavaScript String.prototype.trim: whitespace stripped from both ends. -/
def jsTrim (s : Str) : Str :=
  ((s.dropWhile jsSpace).reverse.dropWhile jsSpace).reverse

/-- JavaScript String.prototype.toLowerCase (ASCII model). -/
def jsToLower (s : Str) : Str := s.map Char.toLower

/-- JavaScript String.prototype.endsWith. -/
def jsEndsWith (s suffix : Str) : Bool := suffix.isSuffixOf s

/-- Runtime identifiers (types.ts, MacroRuntime). -/
inductive MacroRuntime
  | javascript
  | python
deriving DecidableEq

/-- JavaScript runtime values, as far as the engine inspects them: the
    typeof-string test and the string payload are what matters. -/
inductive JSValue
  | str (s : Str)
  | num (n : Int)
  | boolean (b : Bool)
  | nullv
  | undef
  | obj
  | arr
deriving DecidableEq

/-- A JavaScript object holding globals, as an association list in
    insertion order; lookup takes the first match, so spreading an object
    after another one is modelled by putting its entries first. -/
abbrev Globals := List (Str × JSValue)

/-- Property lookup on a globals object. -/
def lookupG : Globals → Str → Option JSValue
  | [], _ => none
  | (k, v) :: rest, key => if k = key then some v else lookupG rest key

/-- Object spread of two objects, the second spread after the first, so
    the second one's keys win on collision. -/
def spreadG (first second : Globals) : Globals := second ++ first

/-- Macro descriptor (types.ts, Macro). -/
structure Macro where
  id : Str
  name : Str
  description : Str
  code : Str
  runtime : Option MacroRuntime
  createdAt : Nat
  filePath : Option Str
deriving DecidableEq

/-- Execution context (types.ts, MacroExecutionContext). -/
structure MacroExecutionContext where
  input : Str
  languageId : Str
  filePath : Option Str
  globals : Option Globals
deriving DecidableEq

/-- Execution result (types.ts, MacroExecutionResult). -/
structure MacroExecutionResult where
  success : Bool
  output : Option Str
  error : Option Str
deriving DecidableEq

/-- A value read from workspace configuration: a plain object, an array,
    or a non-object primitive; an absent (undefined/null) value is `none`
    at the use site. -/
inductive ConfigValue
  | obj (g : Globals)
  | arr
  | prim
deriving DecidableEq

/-- The first event that settles the Python subprocess promise: an error
    event from spawn (with the system error code and message), a failure
    of the stdin write, or the close event with exit code (none when the
    process was killed by a signal) and the captured stdout and stderr. -/
inductive PyEvent
  | spawnError (errCode : Option Str) (errMsg : Str)
  | stdinWriteError (errMsg : Str)
  | closed (exitCode : Option Nat) (stdoutTxt : Str) (stderrTxt : Str)
deriving DecidableEq

/-- The environment of one execution: configuration reads, workspace
    state, and oracles for the host JavaScript parser, the compiled
    transform function's (awaited) outcome, the payload serialization and
    the Python subprocess events. -/
structure Env where
  configGlobals : Option ConfigValue
  pythonPathCfg : Option Str
  defaultInterpreterPath : Option Str
  workspaceRoot : Option Str
  parseJS : Str → Except Str Unit
  jsInvoke : Str → MacroExecutionContext → List JSValue → Except Str JSValue
  serializeError : Option Str
  pyEvent : PyEvent

/-- getGlobalVariables: the configured vcode macro globals, or the empty
    object when the configured value is absent, not an object, or an
    array. -/
def getGlobalVariables (env : Env) : Globals :=
  match env.configGlobals with
  | some (ConfigValue.obj g) => g
  | _ => []

/-- getRuntime: explicit runtime field first; otherwise a non-empty
    backing file path whose lowercased text ends in .py resolves to
    python; otherwise javascript. -/
def getRuntime (m : Macro) : MacroRuntime :=
  match m.runtime with
  | some r => r
  | none =>
    match m.filePath with
    | some p =>
      if !p.isEmpty && jsEndsWith (jsToLower p) ".py".data then
        MacroRuntime.python
      else
        MacroRuntime.javascript
    | none => MacroRuntime.javascript

/-- getPythonPath fallback chain after the vcode setting: the python
    defaultInterpreterPath setting, then the bare name python3. -/
def getPythonPathDefault (env : Env) : Str :=
  match env.defaultInterpreterPath with
  | some p => if (jsTrim p).length > 0 then p else "python3".data
  | none => "python3".data

/-- getPythonPath: the configured vcode python path when set and
    non-blank, else the fallback chain. -/
def getPythonPath (env : Env) : Str :=
  match env.pythonPathCfg with
  | some configured =>
    if (jsTrim configured).length > 0 then configured
    else getPythonPathDefault env
  | none => getPythonPathDefault env

/-- formatPythonSpawnError: an actionable message for ENOENT naming the
    configuration key and the attempted executable, else a generic
    message carrying the error text. -/
def formatPythonSpawnError (pythonPath : Str) (errCode : Option Str) (errMsg : Str) : Str :=
  if errCode = some "ENOENT".data then
    "Python interpreter not found. Configure \"vcode.macro.python.path\" or ensure \"".data
      ++ pythonPath ++ "\" is on PATH.".data
  else
    "Failed to run Python macro: ".data ++ errMsg

/-- The effective context built at the top of execute: a copy of the
    caller context whose globals are the configured globals spread first
    and the caller globals spread second, so the caller wins on key
    collision. -/
def effectiveContext (env : Env) (ctx : MacroExecutionContext) : MacroExecutionContext :=
  { ctx with globals := some (spreadG (getGlobalVariables env) (ctx.globals.getD [])) }

/-- Result of ensurePythonMacroFile: the file to hand to the interpreter
    and whether a scratch directory was created for it (in which case a
    cleanup action was returned alongside). -/
structure EnsuredFile where
  filePath : Str
  hasCleanup : Bool
deriving DecidableEq

/-- The path used for a materialized inline macro: a file named macro.py
    inside a freshly created unique scratch directory (mkdtemp). -/
def tempMacroFilePath : Str := "/tmp/vcode-macro-XXXXXX/macro.py".data

/-- ensurePythonMacroFile: a truthy backing file path (present and
    non-empty, the source's truthiness test on the path string) is used
    as is with no cleanup; otherwise (no path, or the falsy empty-string
    path) blank inline code throws, and non-blank inline code is
    materialized into a fresh scratch directory with a cleanup action
    that removes that directory. -/
def ensurePythonMacroFile (m : Macro) : Except Str EnsuredFile :=
  if !(m.filePath.getD []).isEmpty then
    Except.ok ⟨m.filePath.getD [], false⟩
  else if m.code.isEmpty || (jsTrim m.code).length = 0 then
    Except.error "Python macro requires a file path or inline code".data
  else
    Except.ok ⟨tempMacroFilePath, true⟩

/-- The body of executePythonMacro once the macro file is ensured: the
    serialization guard, then the subprocess promise, every branch of
    which resolves to a result value (no branch throws). -/
def pyBody (env : Env) : MacroExecutionResult :=
  match env.serializeError with
  | some e =>
    ⟨false, none, some ("Failed to serialize context for Python: ".data ++ e)⟩
  | none =>
    match env.pyEvent with
    | PyEvent.spawnError c msg =>
      ⟨false, none, some (formatPythonSpawnError (getPythonPath env) c msg)⟩
    | PyEvent.stdinWriteError msg =>
      ⟨false, none, some ("Failed to send input to Python: ".data ++ msg)⟩
    | PyEvent.closed none _ stderrTxt =>
      ⟨false, none,
        some (if (jsTrim stderrTxt).isEmpty then
          "Python process terminated unexpectedly".data
        else jsTrim stderrTxt)⟩
    | PyEvent.closed (some code) stdoutTxt stderrTxt =>
      if code ≠ 0 then
        ⟨false, none,
          some (if (jsTrim stderrTxt).isEmpty then
            "Python exited with code ".data ++ (toString code).data
          else jsTrim stderrTxt)⟩
      else
        ⟨true, some stdoutTxt, none⟩

/-- Outcome of executePythonMacro, together with the scratch-directory
    bookkeeping: whether a scratch directory was created for this run and
    whether it was removed again by the cleanup in the finally clause. -/
structure PyOutcome where
  result : Except Str MacroExecutionResult
  tempCreated : Bool
  tempRemoved : Bool

/-- executePythonMacro: ensure the macro file (this may throw, before any
    try block), then run the body with a finally clause that runs the
    cleanup action whenever one was returned, on every body outcome. -/
def executePythonMacro (env : Env) (m : Macro) : PyOutcome :=
  match ensurePythonMacroFile m with
  | Except.error e => ⟨Except.error e, false, false⟩
  | Except.ok ef => ⟨Except.ok (pyBody env), ef.hasCleanup, ef.hasCleanup⟩

/-- The wrapper built by createSandboxedFunction: the user code verbatim,
    followed by an invocation of the user-declared transform function. -/
def wrappedCode (code : Str) : Str :=
  "\n                ".data ++ code
    ++ "\n                return transform(input, context, ...args);\n            ".data

/-- createSandboxedFunction: hand the wrapped code to the host JavaScript
    function constructor, which parses but never runs it; a parse failure
    is rethrown with a prefixed message. -/
def createSandboxedFunction (env : Env) (code : Str) : Except Str Unit :=
  match env.parseJS (wrappedCode code) with
  | Except.ok _ => Except.ok ()
  | Except.error e => Except.error ("Failed to create macro function: ".data ++ e)

/-- Shape of validateMacroCode's result. -/
structure ValidationResult where
  valid : Bool
  error : Option Str
deriving DecidableEq

/-- validateMacroCode: attempt compilation and report the outcome without
    ever invoking the compiled function. -/
def validateMacroCode (env : Env) (code : Str) : ValidationResult :=
  match createSandboxedFunction env code with
  | Except.ok _ => ⟨true, none⟩
  | Except.error e => ⟨false, some e⟩

/-- The try block of execute: build the effective context, resolve the
    runtime, dispatch to the Python bridge or to the in-process path
    (compile, invoke, then validate that the awaited result is a string). -/
def executeBody (env : Env) (m : Macro) (ctx : MacroExecutionContext)
    (ps : List JSValue) : Except Str MacroExecutionResult := do
  let executionContext := effectiveContext env ctx
  if getRuntime m = MacroRuntime.python then
    (executePythonMacro env m).result
  else do
    let _ ← createSandboxedFunction env m.code
    let output ← env.jsInvoke m.code executionContext ps
    match output with
    | JSValue.str s => pure ⟨true, some s, none⟩
    | _ => pure ⟨false, none, some "Macro must return a string value".data⟩

/-- execute: the try block wrapped in the outermost catch, which converts
    any thrown error into a failure result carrying its message. -/
def execute (env : Env) (m : Macro) (ctx : MacroExecutionContext)
    (ps : List JSValue) : MacroExecutionResult :=
  match executeBody env m ctx ps with
  | Except.ok r => r
  | Except.error e => ⟨false, none, some e⟩

/-- Association-list lookup distributes over append as an ordered choice. -/
theorem lookupG_append (g₁ g₂ : Globals) (k : Str) :
    lookupG (g₁ ++ g₂) k = (lookupG g₁ k <|> lookupG g₂ k) := by
  induction g₁ with
  | nil => simp [lookupG]
  | cons kv rest ih =>
    obtain ⟨k', v⟩ := kv
    by_cases h : k' = k <;> simp [lookupG, h, ih]

/-- A string that ends in a suffix still ends in the lowercase of that
    suffix after lowercasing. -/
theorem jsEndsWith_toLower {p suffix : Str} (h : jsEndsWith p suffix = true) :
    jsEndsWith (jsToLower p) (jsToLower suffix) = true := by
  unfold jsEndsWith at h ⊢
  rw [List.isSuffixOf_iff_suffix] at h ⊢
  obtain ⟨t, ht⟩ := h
  subst ht
  exact ⟨jsToLower t, (List.map_append ..).symm⟩

/-- A string that ends in a non-empty suffix is itself non-empty. -/
theorem jsEndsWith_isEmpty {p suffix : Str} (h : jsEndsWith p suffix = true)
    (hs : suffix ≠ []) : p.isEmpty = false := by
  unfold jsEndsWith at h
  rw [List.isSuffixOf_iff_suffix] at h
  obtain ⟨t, ht⟩ := h
  subst ht
  cases suffix with
  | nil => exact absurd rfl hs
  | cons c cs => cases t <;> rfl

/-- Literal atom of the regex model: match the given characters one by
    one at the head, returning the rest of the text. -/
def matchLit : Str → Str → Option Str
  | [], s => some s
  | _ :: _, [] => none
  | c :: cs, d :: ds => if c = d then matchLit cs ds else none

/-- One or more whitespace characters, the regex atom of one or more
    spaces, with maximal munch: every atom that follows it in the pattern
    starts with a non-space character, so the greedy match never has to
    backtrack into the whitespace run. -/
def matchSpaces1 : Str → Option Str
  | [] => none
  | c :: rest => if jsSpace c then some (rest.dropWhile jsSpace) else none

/-- The capture at the end of the pattern: zero or more non-parenthesis
    characters, then the literal closing parenthesis. The capture class
    cannot cross a closing parenthesis, so it is exactly the run up to
    the first one, which must exist. -/
def captureParen (s : Str) : Option Str :=
  match s.dropWhile (fun c => c ≠ ')') with
  | ')' :: _ => some (s.takeWhile (fun c => c ≠ ')'))
  | _ => none

/-- The mandatory tail of the pattern: the function keyword, whitespace,
    the transform name, optional whitespace, the opening parenthesis and
    the capture. -/
def matchTail (s : Str) : Option Str := do
  let s1 ← matchLit "function".data s
  let s2 ← matchSpaces1 s1
  let s3 ← matchLit "transform".data s2
  let s4 := s3.dropWhile jsSpace
  let s5 ← matchLit "(".data s4
  captureParen s5

/-- The optional async qualifier group, with regex backtracking: try the
    group first, else proceed without it. -/
def matchAfterExport (s : Str) : Option Str :=
  (do
    let s1 ← matchLit "async".data s
    let s2 ← matchSpaces1 s1
    matchTail s2) <|> matchTail s

/-- The optional export qualifier group followed by the rest. -/
def matchAt (s : Str) : Option Str :=
  (do
    let s1 ← matchLit "export".data s
    let s2 ← matchSpaces1 s1
    matchAfterExport s2) <|> matchAfterExport s

/-- Leftmost regex search: the capture of the first start position at
    which the whole pattern matches, scanning left to right. -/
def searchTransform : Str → Option Str
  | [] => none
  | s@(_ :: rest) =>
    match matchAt s with
    | some cap => some cap
    | none => searchTransform rest

/-- JavaScript String.prototype.split on a separator character: one piece
    per gap, so n separators yield n plus one pieces, empty pieces
    included. -/
def splitOnChar (sep : Char) : Str → List Str
  | [] => [[]]
  | c :: rest =>
    let r := splitOnChar sep rest
    if c = sep then [] :: r
    else
      match r with
      | h :: t => (c :: h) :: t
      | [] => [[c]]

/-- The per-parameter cleanup applied to each comma piece: trim, strip a
    default-value initializer (the text from the equals sign on, then
    trim again), and drop destructuring patterns, which begin with an
    opening brace or bracket, by mapping them to the empty name. -/
def cleanParam (p : Str) : Str :=
  let t := jsTrim p
  let t2 :=
    if t.contains '=' then jsTrim (t.takeWhile (fun c => c ≠ '='))
    else t
  if t2.head? = some '{' || t2.head? = some '[' then [] else t2

/-- extractParameters: find the transform declaration with the regex
    model; return nothing when it is absent or its parameter list is
    blank; otherwise split the captured list on commas, clean each piece,
    drop empty names, and drop the implicit input and context parameters
    and rest parameters. -/
def extractParameters (code : Str) : List Str :=
  match searchTransform code with
  | none => []
  | some paramsString =>
    if (jsTrim paramsString).isEmpty then []
    else
      let params :=
        ((splitOnChar ',' paramsString).map cleanParam).filter (fun p => !p.isEmpty)
      params.filter (fun p =>
        p != "input".data && p != "context".data
          && !("...".data.isPrefixOf p))

/-- Sample descriptor: no explicit runtime, backing path script.py. -/
def mPy : Macro :=
  ⟨"m1".data, "n".data, "d".data, "code".data, none, 0, some "script.py".data⟩

/-- Sample descriptor: no explicit runtime and no backing path. -/
def mNoPath : Macro :=
  ⟨"m2".data, "n".data, "d".data, "code".data, none, 0, none⟩

/-- Sample descriptor: no explicit runtime, backing path SCRIPT.PY. -/
def mPyUpper : Macro :=
  ⟨"m3".data, "n".data, "d".data, "code".data, none, 0, some "SCRIPT.PY".data⟩

/-- C3: runtime resolution precedence. An explicit runtime field always
    wins; otherwise a backing path ending in .py resolves to python; a
    missing path resolves to javascript, and so does a path that does not
    end in .py once lowercased (which covers .js and every other
    extension); resolution is a pure function of the descriptor, so
    resolving twice yields the same identifier. -/
theorem c3_runtime_resolution (m : Macro) :
    (∀ r, m.runtime = some r → getRuntime m = r)
    ∧ (m.runtime = none → ∀ p, m.filePath = some p →
        jsEndsWith p ".py".data = true → getRuntime m = MacroRuntime.python)
    ∧ (m.runtime = none → m.filePath = none →
        getRuntime m = MacroRuntime.javascript)
    ∧ (m.runtime = none → ∀ p, m.filePath = some p →
        jsEndsWith (jsToLower p) ".py".data = false →
        getRuntime m = MacroRuntime.javascript)
    ∧ getRuntime m = getRuntime m := by
  refine ⟨?_, ?_, ?_, ?_, rfl⟩
  · intro r hr; simp [getRuntime, hr]
  · intro hr p hp hends
    have h1 : jsEndsWith (jsToLower p) ".py".data = true := by
      have h := jsEndsWith_toLower hends
      have hfix : jsToLower ".py".data = ".py".data := by decide
      rwa [hfix] at h
    have h2 : p.isEmpty = false := jsEndsWith_isEmpty hends (by decide)
    simp [getRuntime, hr, hp, h1, h2]
  · intro hr hp; simp [getRuntime, hr, hp]
  · intro hr p hp hends; simp [getRuntime, hr, hp, hends]

/-- Witness for C3: a .py path resolves to python, no path to javascript. -/
theorem c3_runtime_resolution_witness :
    getRuntime mPy = MacroRuntime.python
      ∧ getRuntime mNoPath = MacroRuntime.javascript :=
  ⟨(c3_runtime_resolution mPy).2.1 rfl "script.py".data rfl (by decide),
   (c3_runtime_resolution mNoPath).2.2.1 rfl rfl⟩

/-- C10: the extension fallback is case-insensitive. With no explicit
    runtime, a backing path ending in any suffix whose lowercasing is
    ".py" (such as ".PY", ".Py", ".pY") resolves to python, because the
    path is lowercased before the extension test. -/
theorem c10_case_insensitive_py (m : Macro) (p suf : Str)
    (hr : m.runtime = none) (hp : m.filePath = some p)
    (hsuf : jsEndsWith p suf = true) (hlow : jsToLower suf = ".py".data) :
    getRuntime m = MacroRuntime.python := by
  have h1 : jsEndsWith (jsToLower p) ".py".data = true := by
    have h := jsEndsWith_toLower hsuf
    rwa [hlow] at h
  have hsne : suf ≠ [] := by
    intro hnil; rw [hnil] at hlow; exact absurd hlow (by decide)
  have h2 : p.isEmpty = false := jsEndsWith_isEmpty hsuf hsne
  simp [getRuntime, hr, hp, h1, h2]

/-- Witness for C10: SCRIPT.PY resolves to python. -/
theorem c10_case_insensitive_py_witness :
    getRuntime mPyUpper = MacroRuntime.python :=
  c10_case_insensitive_py mPyUpper "SCRIPT.PY".data ".PY".data rfl rfl
    (by decide) (by decide)

/-- C4: the effective context merges configured globals under the caller
    globals shallowly, the caller value winning on a shared key; the
    other context fields are copied unchanged (the merge builds a fresh
    object by spreading, so the caller context value is never mutated);
    and on the concrete example, configured a=1 merged below caller
    a=2, b=3 reads back exactly as a=2, b=3. -/
theorem c4_globals_merge :
    (∀ env ctx k, lookupG (((effectiveContext env ctx).globals).getD []) k
        = (lookupG (ctx.globals.getD []) k <|> lookupG (getGlobalVariables env) k))
    ∧ (∀ env ctx, (effectiveContext env ctx).input = ctx.input
        ∧ (effectiveContext env ctx).languageId = ctx.languageId
        ∧ (effectiveContext env ctx).filePath = ctx.filePath)
    ∧ (∀ k, lookupG (spreadG [("a".data, JSValue.num 1)]
          [("a".data, JSValue.num 2), ("b".data, JSValue.num 3)]) k
        = lookupG [("a".data, JSValue.num 2), ("b".data, JSValue.num 3)] k) := by
  refine ⟨?_, ?_, ?_⟩
  · intro env ctx k
    simp [effectiveContext, spreadG, lookupG_append]
  · intro env ctx
    exact ⟨rfl, rfl, rfl⟩
  · intro k
    simp only [spreadG, List.cons_append, List.nil_append, lookupG]
    split_ifs <;> rfl

/-- Sample environment: empty configuration, parser accepts, transform
    settles with the string ok, subprocess exits 0 with stdout out. -/
def envDemo : Env :=
  ⟨none, none, none, none, fun _ => Except.ok (),
    fun _ _ _ => Except.ok (JSValue.str "ok".data), none,
    PyEvent.closed (some 0) "out".data []⟩

/-- Sample environment where the transform settles with the number 42. -/
def envNum : Env :=
  ⟨none, none, none, none, fun _ => Except.ok (),
    fun _ _ _ => Except.ok (JSValue.num 42), none,
    PyEvent.closed (some 0) "out".data []⟩

/-- Sample environment where the parser rejects with a message. -/
def envBadParse : Env :=
  ⟨none, none, none, none,
    fun _ => Except.error "Unexpected end of input".data,
    fun _ _ _ => Except.ok JSValue.undef, none,
    PyEvent.closed (some 0) [] []⟩

/-- Sample environment where the subprocess exits 2 with stderr text. -/
def envPyFail : Env :=
  ⟨none, none, none, none, fun _ => Except.ok (),
    fun _ _ _ => Except.ok (JSValue.str "ok".data), none,
    PyEvent.closed (some 2) [] "boom\n".data⟩

/-- Sample python macro with blank inline code and no backing path. -/
def mBlankPy : Macro :=
  ⟨"m4".data, "n".data, "d".data, "   ".data, some MacroRuntime.python, 0, none⟩

/-- Sample python macro with a backing file path. -/
def mPyFile : Macro :=
  ⟨"m5".data, "n".data, "d".data, [], some MacroRuntime.python, 0, some "x.py".data⟩

/-- Sample python macro with inline source and no backing path. -/
def mInlinePy : Macro :=
  ⟨"m6".data, "n".data, "d".data, "print(1)".data, some MacroRuntime.python, 0, none⟩

/-- Sample execution context. -/
def ctxDemo : MacroExecutionContext :=
  ⟨"input".data, "plaintext".data, none, none⟩

/-- C1: the orchestrator is the outermost failure boundary: when the try
    block throws, execute returns a failure-shaped result carrying the
    thrown message, and when the try block produces a result, execute
    passes it through; in every case the caller receives a plain
    success-or-failure value, never a propagated exception. -/
theorem c1_execute_never_raises (env : Env) (m : Macro)
    (ctx : MacroExecutionContext) (ps : List JSValue) :
    (∀ e, executeBody env m ctx ps = Except.error e →
        execute env m ctx ps = ⟨false, none, some e⟩)
    ∧ (∀ r, executeBody env m ctx ps = Except.ok r →
        execute env m ctx ps = r) := by
  constructor
  · intro e he; simp [execute, he]
  · intro r hr; simp [execute, hr]

/-- Witness for C1: a python macro with neither a backing path nor
    non-blank inline code makes the try block throw, and execute converts
    that into a failure result with the thrown message. -/
theorem c1_execute_never_raises_witness :
    execute envDemo mBlankPy ctxDemo []
      = ⟨false, none, some "Python macro requires a file path or inline code".data⟩ :=
  (c1_execute_never_raises envDemo mBlankPy ctxDemo []).1
    "Python macro requires a file path or inline code".data (by decide)

/-- C2: in-process result validation: for a javascript-resolved macro
    whose compilation parses and whose transform settles with a value, a
    non-string value yields the failure message "Macro must return a
    string value", and a string value yields success carrying exactly
    that string as output. -/
theorem c2_string_result_validation (env : Env) (m : Macro)
    (ctx : MacroExecutionContext) (ps : List JSValue) (v : JSValue)
    (hrt : getRuntime m = MacroRuntime.javascript)
    (hparse : env.parseJS (wrappedCode m.code) = Except.ok ())
    (hinv : env.jsInvoke m.code (effectiveContext env ctx) ps = Except.ok v) :
    (∀ s, v = JSValue.str s → execute env m ctx ps = ⟨true, some s, none⟩)
    ∧ ((∀ s, v ≠ JSValue.str s) → execute env m ctx ps
        = ⟨false, none, some "Macro must return a string value".data⟩) := by
  have hcsf : createSandboxedFunction env m.code = Except.ok () := by
    simp [createSandboxedFunction, hparse]
  constructor
  · intro s hv
    subst hv
    simp [execute, executeBody, hrt, hcsf, hinv, bind, Except.bind, pure, Except.pure]
  · intro hns
    cases v
    case str s => exact absurd rfl (hns s)
    all_goals
      simp [execute, executeBody, hrt, hcsf, hinv, bind, Except.bind, pure, Except.pure]

/-- Witness for C2: a transform returning the string ok yields success
    with output ok; a transform returning the number 42 yields the
    string-validation failure. -/
theorem c2_string_result_validation_witness :
    execute envDemo mNoPath ctxDemo [] = ⟨true, some "ok".data, none⟩
    ∧ execute envNum mNoPath ctxDemo []
      = ⟨false, none, some "Macro must return a string value".data⟩ :=
  ⟨(c2_string_result_validation envDemo mNoPath ctxDemo []
      (JSValue.str "ok".data) rfl rfl rfl).1 "ok".data rfl,
   (c2_string_result_validation envNum mNoPath ctxDemo []
      (JSValue.num 42) rfl rfl rfl).2 (fun _ h => JSValue.noConfusion h)⟩

/-- C7: bridge outcome mapping on subprocess termination: exit code 0
    yields success with the captured stdout verbatim (not trimmed); a
    nonzero exit code yields failure with the trimmed stderr, or the
    generic exited-with-code message when stderr trims to empty;
    termination without an exit code yields failure with the trimmed
    stderr, or the generic terminated-unexpectedly message when stderr
    trims to empty. -/
theorem c7_bridge_outcome_mapping (env : Env) (m : Macro) (ef : EnsuredFile)
    (out err : Str) (hens : ensurePythonMacroFile m = Except.ok ef)
    (hser : env.serializeError = none) :
    (env.pyEvent = PyEvent.closed (some 0) out err →
        (executePythonMacro env m).result = Except.ok ⟨true, some out, none⟩)
    ∧ (∀ n, n ≠ 0 → env.pyEvent = PyEvent.closed (some n) out err →
        (executePythonMacro env m).result = Except.ok ⟨false, none,
          some (if (jsTrim err).isEmpty then
              "Python exited with code ".data ++ (toString n).data
            else jsTrim err)⟩)
    ∧ (env.pyEvent = PyEvent.closed none out err →
        (executePythonMacro env m).result = Except.ok ⟨false, none,
          some (if (jsTrim err).isEmpty then
              "Python process terminated unexpectedly".data
            else jsTrim err)⟩) := by
  refine ⟨?_, ?_, ?_⟩
  · intro hev
    simp [executePythonMacro, hens, pyBody, hser, hev]
  · intro n hn hev
    simp [executePythonMacro, hens, pyBody, hser, hev, hn]
  · intro hev
    simp [executePythonMacro, hens, pyBody, hser, hev]

/-- Witness for C7: exit 0 with stdout out yields success with out; exit
    2 with stderr boom plus newline yields failure with the trimmed
    stderr. -/
theorem c7_bridge_outcome_mapping_witness :
    (executePythonMacro envDemo mPyFile).result
      = Except.ok ⟨true, some "out".data, none⟩
    ∧ (executePythonMacro envPyFail mPyFile).result = Except.ok ⟨false, none,
        some (if (jsTrim "boom\n".data).isEmpty then
            "Python exited with code ".data ++ (toString 2).data
          else jsTrim "boom\n".data)⟩ :=
  ⟨(c7_bridge_outcome_mapping envDemo mPyFile ⟨"x.py".data, false⟩
      "out".data [] rfl rfl).1 rfl,
   (c7_bridge_outcome_mapping envPyFail mPyFile ⟨"x.py".data, false⟩
      [] "boom\n".data rfl rfl).2.1 2 (by decide) rfl⟩

/-- C8: scratch-directory lifecycle of the bridge: with inline source
    and no truthy backing path (the path absent, or the empty string,
    which the source's truthiness test treats as absent), a scratch
    directory is created for the run and the finally cleanup removes it
    again on every outcome, so it no longer exists afterwards; with a
    truthy (non-empty) backing path no scratch directory is ever created
    or removed. -/
theorem c8_temp_cleanup (env : Env) (m : Macro) :
    ((m.filePath = none ∨ m.filePath = some []) →
        (jsTrim m.code).length ≠ 0 →
        (executePythonMacro env m).tempCreated = true
        ∧ (executePythonMacro env m).tempRemoved = true
        ∧ ((executePythonMacro env m).tempCreated
            && !(executePythonMacro env m).tempRemoved) = false)
    ∧ (∀ fp, m.filePath = some fp → fp ≠ [] →
        (executePythonMacro env m).tempCreated = false
        ∧ (executePythonMacro env m).tempRemoved = false) := by
  constructor
  · intro hfp hcode
    have hne : m.code.isEmpty = false := by
      cases hc : m.code with
      | nil => exact absurd (by simp [hc, jsTrim]) hcode
      | cons a l => rfl
    rcases hfp with h | h <;>
      simp [executePythonMacro, ensurePythonMacroFile, h, hne, hcode]
  · intro fp hfp hne
    cases fp with
    | nil => exact absurd rfl hne
    | cons c cs =>
      simp [executePythonMacro, ensurePythonMacroFile, hfp]

/-- Witness for C8: an inline python macro creates and removes its
    scratch directory; a file-backed one touches none. -/
theorem c8_temp_cleanup_witness :
    ((executePythonMacro envDemo mInlinePy).tempCreated = true
      ∧ (executePythonMacro envDemo mInlinePy).tempRemoved = true
      ∧ ((executePythonMacro envDemo mInlinePy).tempCreated
          && !(executePythonMacro envDemo mInlinePy).tempRemoved) = false)
    ∧ ((executePythonMacro envDemo mPyFile).tempCreated = false
      ∧ (executePythonMacro envDemo mPyFile).tempRemoved = false) :=
  ⟨(c8_temp_cleanup envDemo mInlinePy).1 (Or.inl rfl) (by decide),
   (c8_temp_cleanup envDemo mPyFile).2 "x.py".data rfl (by decide)⟩

/-- C9 counterexample: the source text of var x = 1 defines no transform
    function, yet validateMacroCode reports it valid. The function
    constructor only parses the wrapped code, and in JavaScript a
    dangling reference to transform is not a parse error because names
    are resolved at call time, as the accepting parser oracle records;
    no definition check is performed anywhere in validateMacroCode. This
    refutes the part of the claim that says definition errors are
    reported as invalid. -/
theorem c9_counterexample :
    validateMacroCode envDemo "var x = 1;".data = ⟨true, none⟩ := rfl

/-- C9 amended: validate attempts compilation only and never executes the
    user's code: its verdict depends only on the parser oracle, not on
    the invocation oracle; a parse failure is reported invalid with the
    prefixed message; and a source whose wrapped form parses is reported
    valid even when it fails to define transform, definition errors
    surfacing only at execution time. -/
theorem c9_validate_compile_only (env : Env) (code : Str) :
    (env.parseJS (wrappedCode code) = Except.ok () →
        validateMacroCode env code = ⟨true, none⟩)
    ∧ (∀ e, env.parseJS (wrappedCode code) = Except.error e →
        validateMacroCode env code
          = ⟨false, some ("Failed to create macro function: ".data ++ e)⟩)
    ∧ (∀ env2 : Env, env2.parseJS = env.parseJS →
        validateMacroCode env2 code = validateMacroCode env code) := by
  refine ⟨?_, ?_, ?_⟩
  · intro h; simp [validateMacroCode, createSandboxedFunction, h]
  · intro e h; simp [validateMacroCode, createSandboxedFunction, h]
  · intro env2 h; simp [validateMacroCode, createSandboxedFunction, h]

/-- Witness for C9: an accepted source is valid; a rejected one is
    invalid with the prefixed parser message. -/
theorem c9_validate_compile_only_witness :
    validateMacroCode envDemo "var x = 1;".data = ⟨true, none⟩
    ∧ validateMacroCode envBadParse "function transform(".data
      = ⟨false, some ("Failed to create macro function: ".data
          ++ "Unexpected end of input".data)⟩ :=
  ⟨(c9_validate_compile_only envDemo "var x = 1;".data).1 rfl,
   (c9_validate_compile_only envBadParse "function transform(".data).2.1
     "Unexpected end of input".data rfl⟩

/-- C5: extractParameters is a total function of the source text (the
    embedding returns a value on every input, the model of the catch-all
    that never lets an error reach the caller), and whenever the regex
    search finds no transform declaration it returns the empty
    sequence. -/
theorem c5_extract_empty_when_no_match (code : Str)
    (h : searchTransform code = none) : extractParameters code = [] := by
  simp [extractParameters, h]

/-- Witness for C5: a source without a transform declaration. -/
theorem c5_extract_empty_when_no_match_witness :
    searchTransform "const x = 1;".data = none
    ∧ extractParameters "const x = 1;".data = [] :=
  ⟨by decide, c5_extract_empty_when_no_match "const x = 1;".data (by decide)⟩

/-- Characters allowed in a plain identifier token. -/
def isIdentChar (c : Char) : Bool := c.isAlpha || c.isDigit || c = '_'

/-- A plain identifier token: non-empty and made of identifier
    characters only. -/
abbrev PlainIdent (t : Str) : Prop := t ≠ [] ∧ ∀ c ∈ t, isIdentChar c = true

/-- The parameter-list text built from declaration-ordered tokens,
    joined by a comma and one space, as a declaration would write it. -/
def joinComma : List Str → Str
  | [] => []
  | [t] => t
  | t :: t2 :: ts => t ++ ',' :: ' ' :: joinComma (t2 :: ts)

/-- The parameter forms a declaration can hold: a plain identifier, an
    identifier with a default-value initializer, a destructuring pattern
    in brackets or braces, and a rest parameter. -/
inductive ParamTok
  | plain (name : Str)
  | dflt (name : Str) (rhs : Str)
  | destruct (square : Bool) (body : Str)
  | rest (name : Str)
deriving DecidableEq

/-- The source text of one parameter form as a declaration writes it. -/
def renderTok : ParamTok → Str
  | ParamTok.plain n => n
  | ParamTok.dflt n r => n ++ ' ' :: '=' :: ' ' :: r
  | ParamTok.destruct square b =>
    if square then '[' :: (b ++ [']']) else '{' :: (b ++ ['}'])
  | ParamTok.rest n => '.' :: '.' :: '.' :: n

/-- What the per-parameter cleanup leaves of each form: the bare name
    for a plain or defaulted identifier (the initializer stripped), the
    empty name for a destructuring pattern, and the dotted name for a
    rest parameter. -/
def cleanedTok : ParamTok → Str
  | ParamTok.plain n => n
  | ParamTok.dflt n _ => n
  | ParamTok.destruct _ _ => []
  | ParamTok.rest n => '.' :: '.' :: '.' :: n

/-- What the whole extractor keeps of each parameter form: the name of a
    plain or defaulted identifier unless it is input or context;
    destructuring and rest parameters are dropped. -/
def tokResult : ParamTok → Option Str
  | ParamTok.plain n =>
    if n = "input".data ∨ n = "context".data then none else some n
  | ParamTok.dflt n _ =>
    if n = "input".data ∨ n = "context".data then none else some n
  | ParamTok.destruct _ _ => none
  | ParamTok.rest _ => none

/-- Well-formedness of a parameter form: names and default expressions
    are plain identifier tokens, destructuring bodies hold identifier
    characters. -/
def TokOk : ParamTok → Prop
  | ParamTok.plain n => PlainIdent n
  | ParamTok.dflt n r => PlainIdent n ∧ PlainIdent r
  | ParamTok.destruct _ b => ∀ c ∈ b, isIdentChar c = true
  | ParamTok.rest n => PlainIdent n

instance instDecidableTokOk : (tok : ParamTok) → Decidable (TokOk tok)
  | ParamTok.plain n => inferInstanceAs (Decidable (PlainIdent n))
  | ParamTok.dflt n r => inferInstanceAs (Decidable (PlainIdent n ∧ PlainIdent r))
  | ParamTok.destruct _ b =>
    inferInstanceAs (Decidable (∀ c ∈ b, isIdentChar c = true))
  | ParamTok.rest n => inferInstanceAs (Decidable (PlainIdent n))

/-- An identifier character is none of the separator and syntax
    characters the extractor pipeline tests for. -/
theorem isIdentChar_spec {c : Char} (h : isIdentChar c = true) :
    jsSpace c = false ∧ c ≠ ',' ∧ c ≠ ')' ∧ c ≠ '=' ∧ c ≠ '{'
      ∧ c ≠ '[' ∧ c ≠ '.' := by
  refine ⟨?_, ?_, ?_, ?_, ?_, ?_, ?_⟩
  · by_contra hsp
    rw [Bool.not_eq_false] at hsp
    simp only [jsSpace, Bool.or_eq_true, decide_eq_true_eq] at hsp
    rcases hsp with ((((h1 | h1) | h1) | h1) | h1) | h1 <;> subst h1 <;>
      exact absurd h (by decide)
  all_goals intro he; subst he; exact absurd h (by decide)

/-- dropWhile is the identity when no element satisfies the predicate. -/
theorem dropWhile_eq_self_of_all {p : Char → Bool} :
    ∀ l : Str, (∀ c ∈ l, p c = false) → l.dropWhile p = l
  | [], _ => rfl
  | c :: t, h => by
    have hc : p c = false := h c (by simp)
    simp [List.dropWhile_cons, hc]

/-- takeWhile and dropWhile cut exactly at the first failing element. -/
theorem takeWhile_dropWhile_append {p : Char → Bool} :
    ∀ (xs : Str), (∀ c ∈ xs, p c = true) → ∀ {y : Char}, p y = false →
      ∀ (ys : Str), (xs ++ y :: ys).takeWhile p = xs
        ∧ (xs ++ y :: ys).dropWhile p = y :: ys
  | [], _, y, hy, ys => by simp [List.takeWhile_cons, List.dropWhile_cons, hy]
  | x :: xs, h, y, hy, ys => by
    have hx : p x = true := h x (by simp)
    have ih := takeWhile_dropWhile_append xs (fun c hc => h c (by simp [hc])) hy ys
    simp [List.takeWhile_cons, List.dropWhile_cons, hx, ih.1, ih.2]

/-- The capture step returns exactly the text before the first closing
    parenthesis when one follows. -/
theorem captureParen_eq {xs : Str} (h : ∀ c ∈ xs, c ≠ ')') (ys : Str) :
    captureParen (xs ++ ')' :: ys) = some xs := by
  have hall : ∀ c ∈ xs, (decide (c ≠ ')')) = true :=
    fun c hc => decide_eq_true (h c hc)
  have hy : (decide ((')' : Char) ≠ ')')) = false := by decide
  have htd := takeWhile_dropWhile_append xs hall hy ys
  simp only [captureParen, htd.1, htd.2]

/-- A literal atom consumes exactly itself from the front. -/
theorem matchLit_self_append : ∀ (lit s : Str), matchLit lit (lit ++ s) = some s
  | [], _ => rfl
  | c :: cs, s => by simp [matchLit, matchLit_self_append cs s]

/-- The whole pattern matches at the start of a text beginning with the
    plain declaration header, capturing everything up to the first
    closing parenthesis. -/
theorem matchAt_function_prefix (X rest : Str) (hX : ∀ c ∈ X, c ≠ ')') :
    matchAt ("function transform(".data ++ (X ++ ')' :: rest)) = some X := by
  have h1 : matchAt ("function transform(".data ++ (X ++ ')' :: rest))
      = captureParen (X ++ ')' :: rest) := rfl
  rw [h1, captureParen_eq hX]

/-- A successful match at the current start position is what the search
    returns. -/
theorem searchTransform_cons_of_matchAt {c : Char} {t X : Str}
    (h : matchAt (c :: t) = some X) : searchTransform (c :: t) = some X := by
  simp [searchTransform, h]

/-- Leftmost search on a text that begins with the declaration header. -/
theorem searchTransform_function_prefix (X rest : Str)
    (hX : ∀ c ∈ X, c ≠ ')') :
    searchTransform ("function transform(".data ++ (X ++ ')' :: rest))
      = some X := by
  have hcons : "function transform(".data ++ (X ++ ')' :: rest)
      = 'f' :: ("unction transform(".data ++ (X ++ ')' :: rest)) := rfl
  have h4 := matchAt_function_prefix X rest hX
  rw [hcons] at h4 ⊢
  exact searchTransform_cons_of_matchAt h4

/-- A separator-free piece before a separator splits off whole. -/
theorem splitOnChar_append_piece (xs : Str) (h : ∀ c ∈ xs, c ≠ ',') (ys : Str) :
    splitOnChar ',' (xs ++ ',' :: ys) = xs :: splitOnChar ',' ys := by
  induction xs with
  | nil => simp [splitOnChar]
  | cons c rest ih =>
    have hc : c ≠ ',' := h c (by simp)
    have ih2 := ih (fun d hd => h d (by simp [hd]))
    simp [splitOnChar, hc, ih2]

/-- A separator-free text is a single piece. -/
theorem splitOnChar_of_no_sep (xs : Str) (h : ∀ c ∈ xs, c ≠ ',') :
    splitOnChar ',' xs = [xs] := by
  induction xs with
  | nil => rfl
  | cons c rest ih =>
    have hc : c ≠ ',' := h c (by simp)
    have ih2 := ih (fun d hd => h d (by simp [hd]))
    simp [splitOnChar, hc, ih2]

/-- Splitting the joined token list recovers the tokens, each later one
    still carrying the space that followed its comma. -/
theorem splitOnChar_joinComma (t : Str) (ts : List Str)
    (h1 : ∀ c ∈ t, c ≠ ',') (h2 : ∀ u ∈ ts, ∀ c ∈ u, c ≠ ',') :
    splitOnChar ',' (joinComma (t :: ts))
      = t :: ts.map (fun u => ' ' :: u) := by
  induction ts generalizing t with
  | nil => simpa [joinComma] using splitOnChar_of_no_sep t h1
  | cons t2 ts2 ih =>
    have hj : joinComma (t :: t2 :: ts2)
        = t ++ ',' :: ' ' :: joinComma (t2 :: ts2) := rfl
    rw [hj, splitOnChar_append_piece t h1]
    have ih2 := ih t2 (h2 t2 (by simp)) (fun u hu => h2 u (by simp [hu]))
    simp [splitOnChar, ih2]

/-- jsTrim is the identity on space-free text. -/
theorem jsTrim_of_no_space (t : Str) (h : ∀ c ∈ t, jsSpace c = false) :
    jsTrim t = t := by
  unfold jsTrim
  rw [dropWhile_eq_self_of_all t h,
    dropWhile_eq_self_of_all t.reverse (fun c hc => h c (List.mem_reverse.1 hc)),
    List.reverse_reverse]

/-- jsTrim drops one leading space. -/
theorem jsTrim_cons_space (t : Str) : jsTrim (' ' :: t) = jsTrim t := rfl

/-- jsTrim of text with a non-space head is non-empty. -/
theorem jsTrim_ne_nil {c : Char} (l : Str) (hc : jsSpace c = false) :
    jsTrim (c :: l) ≠ [] := by
  intro hnil
  unfold jsTrim at hnil
  have h1 : (c :: l).dropWhile jsSpace = c :: l := by
    simp [List.dropWhile_cons, hc]
  rw [h1, List.reverse_eq_nil_iff] at hnil
  have h2 := List.dropWhile_eq_nil_iff.1 hnil c (by simp)
  simp [hc] at h2

/-- contains is false when no element equals the probe. -/
theorem contains_eq_false {t : Str} {a : Char} (h : ∀ c ∈ t, c ≠ a) :
    t.contains a = false := by
  have hmem : a ∉ t := fun hm => (h a hm) rfl
  simpa using hmem

/-- cleanParam leaves a plain identifier token unchanged, with or without
    the leading space the comma split leaves on it. -/
theorem cleanParam_plainIdent (t : Str) (h : ∀ c ∈ t, isIdentChar c = true) :
    cleanParam t = t ∧ cleanParam (' ' :: t) = t := by
  have hns : ∀ c ∈ t, jsSpace c = false := fun c hc => (isIdentChar_spec (h c hc)).1
  have htrim : jsTrim t = t := jsTrim_of_no_space t hns
  have hcont : '=' ∉ t := fun hm => absurd (h '=' hm) (by decide)
  have hb1 : t.head? ≠ some '{' := by
    cases t with
    | nil => simp
    | cons c rest =>
      have h1 := isIdentChar_spec (h c (by simp))
      simp [h1.2.2.2.2.1]
  have hb2 : t.head? ≠ some '[' := by
    cases t with
    | nil => simp
    | cons c rest =>
      have h1 := isIdentChar_spec (h c (by simp))
      simp [h1.2.2.2.2.2.1]
  constructor
  · simp [cleanParam, htrim, hcont, hb1, hb2]
  · simp [cleanParam, jsTrim_cons_space, htrim, hcont, hb1, hb2]

/-- A non-empty list decomposes into a head and a tail. -/
theorem exists_cons_of_ne_nil {l : Str} (h : l ≠ []) : ∃ a t, l = a :: t := by
  cases l with
  | nil => exact absurd rfl h
  | cons a t => exact ⟨a, t, rfl⟩

/-- jsTrim is the identity when the first and last characters are not
    whitespace, whatever lies between them. -/
theorem jsTrim_no_space_ends (c d : Char) (l : Str) (hc : jsSpace c = false)
    (hd : jsSpace d = false) : jsTrim (c :: (l ++ [d])) = c :: (l ++ [d]) := by
  unfold jsTrim
  have h1 : (c :: (l ++ [d])).dropWhile jsSpace = c :: (l ++ [d]) := by
    simp [List.dropWhile_cons, hc]
  rw [h1]
  have h2 : (c :: (l ++ [d])).reverse = d :: (l.reverse ++ [c]) := by simp
  rw [h2]
  have h3 : (d :: (l.reverse ++ [c])).dropWhile jsSpace
      = d :: (l.reverse ++ [c]) := by
    simp [List.dropWhile_cons, hd]
  rw [h3]
  simp

/-- jsTrim strips exactly the trailing space off a space-free text. -/
theorem jsTrim_append_space (n : Str) (h : ∀ c ∈ n, jsSpace c = false) :
    jsTrim (n ++ [' ']) = n := by
  cases n with
  | nil => rfl
  | cons c n2 =>
    have hc : jsSpace c = false := h c (by simp)
    unfold jsTrim
    have h1 : ((c :: n2) ++ [' ']).dropWhile jsSpace = (c :: n2) ++ [' '] := by
      simp [List.dropWhile_cons, hc]
    rw [h1]
    have h2 : ((c :: n2) ++ [' ']).reverse = ' ' :: (n2.reverse ++ [c]) := by simp
    rw [h2]
    have h3 : (' ' :: (n2.reverse ++ [c])).dropWhile jsSpace
        = (n2.reverse ++ [c]).dropWhile jsSpace := rfl
    rw [h3, dropWhile_eq_self_of_all (n2.reverse ++ [c]) ?_]
    · simp
    · intro d hd
      rcases List.mem_append.1 hd with hd1 | hd1
      · exact h d (by simp [List.mem_reverse.1 hd1])
      · rcases List.mem_cons.1 hd1 with rfl | hd2
        · exact hc
        · cases hd2

/-- cleanParam strips a default-value initializer, leaving the bare
    identifier before the equals sign. -/
theorem cleanParam_default (n r : Str) (hn : PlainIdent n) (hr : PlainIdent r) :
    cleanParam (n ++ ' ' :: '=' :: ' ' :: r) = n := by
  obtain ⟨hn0, hni⟩ := hn
  obtain ⟨hr0, hri⟩ := hr
  obtain ⟨n0, n2, rfl⟩ := exists_cons_of_ne_nil hn0
  obtain ⟨r2, rl, rfl⟩ : ∃ L x, r = L ++ [x] := by
    rcases List.eq_nil_or_concat r with hcon | ⟨L, x, hcon⟩
    · exact absurd hcon hr0
    · exact ⟨L, x, by rw [hcon, List.concat_eq_append]⟩
  have hn0s : jsSpace n0 = false := (isIdentChar_spec (hni n0 (by simp))).1
  have hrls : jsSpace rl = false := (isIdentChar_spec (hri rl (by simp))).1
  have hshape : (n0 :: n2) ++ ' ' :: '=' :: ' ' :: (r2 ++ [rl])
      = n0 :: ((n2 ++ ' ' :: '=' :: ' ' :: r2) ++ [rl]) := by simp
  have htrim : jsTrim ((n0 :: n2) ++ ' ' :: '=' :: ' ' :: (r2 ++ [rl]))
      = (n0 :: n2) ++ ' ' :: '=' :: ' ' :: (r2 ++ [rl]) := by
    rw [hshape]
    exact jsTrim_no_space_ends n0 rl _ hn0s hrls
  have hcont : ((n0 :: n2) ++ ' ' :: '=' :: ' ' :: (r2 ++ [rl])).contains '='
      = true := by simp
  have htake : ((n0 :: n2) ++ ' ' :: '=' :: ' ' :: (r2 ++ [rl])).takeWhile
      (fun c => c ≠ '=') = (n0 :: n2) ++ [' '] := by
    have hshape2 : (n0 :: n2) ++ ' ' :: '=' :: ' ' :: (r2 ++ [rl])
        = ((n0 :: n2) ++ [' ']) ++ '=' :: (' ' :: (r2 ++ [rl])) := by simp
    rw [hshape2]
    refine (takeWhile_dropWhile_append ((n0 :: n2) ++ [' ']) ?_ ?_
      (' ' :: (r2 ++ [rl]))).1
    · intro c hcm
      rcases List.mem_append.1 hcm with h1 | h1
      · exact decide_eq_true (isIdentChar_spec (hni c h1)).2.2.2.1
      · rcases List.mem_cons.1 h1 with rfl | h2
        · decide
        · cases h2
    · decide
  have htrimtake : jsTrim ((n0 :: n2) ++ [' ']) = n0 :: n2 :=
    jsTrim_append_space _ (fun c hcm => (isIdentChar_spec (hni c hcm)).1)
  have hb1 : n0 ≠ '{' := (isIdentChar_spec (hni n0 (by simp))).2.2.2.2.1
  have hb2 : n0 ≠ '[' := (isIdentChar_spec (hni n0 (by simp))).2.2.2.2.2.1
  simp only [cleanParam]
  rw [htrim, hcont, htake, htrimtake]
  simp [hb1, hb2]

/-- cleanParam maps a destructuring pattern to the empty name. -/
theorem cleanParam_destruct (b : Str) (hb : ∀ c ∈ b, isIdentChar c = true) :
    cleanParam ('{' :: (b ++ ['}'])) = []
      ∧ cleanParam ('[' :: (b ++ [']'])) = [] := by
  constructor
  · have htrim := jsTrim_no_space_ends '{' '}' b (by decide) (by decide)
    have hcont : ∀ c ∈ '{' :: (b ++ ['}']), c ≠ '=' := by
      intro c hcm
      rcases List.mem_cons.1 hcm with rfl | h1
      · decide
      · rcases List.mem_append.1 h1 with h2 | h2
        · exact (isIdentChar_spec (hb c h2)).2.2.2.1
        · rcases List.mem_cons.1 h2 with rfl | h3
          · decide
          · cases h3
    have hnm : '=' ∉ '{' :: (b ++ ['}']) := fun hmem => (hcont '=' hmem) rfl
    simp [cleanParam, htrim, hnm]
  · have htrim := jsTrim_no_space_ends '[' ']' b (by decide) (by decide)
    have hcont : ∀ c ∈ '[' :: (b ++ [']']), c ≠ '=' := by
      intro c hcm
      rcases List.mem_cons.1 hcm with rfl | h1
      · decide
      · rcases List.mem_append.1 h1 with h2 | h2
        · exact (isIdentChar_spec (hb c h2)).2.2.2.1
        · rcases List.mem_cons.1 h2 with rfl | h3
          · decide
          · cases h3
    have hnm : '=' ∉ '[' :: (b ++ [']']) := fun hmem => (hcont '=' hmem) rfl
    simp [cleanParam, htrim, hnm]

/-- cleanParam leaves a rest parameter intact, dots included. -/
theorem cleanParam_rest (n : Str) (hn : PlainIdent n) :
    cleanParam ('.' :: '.' :: '.' :: n) = '.' :: '.' :: '.' :: n := by
  have htrim : jsTrim ('.' :: '.' :: '.' :: n) = '.' :: '.' :: '.' :: n := by
    apply jsTrim_of_no_space
    intro c hcm
    rcases List.mem_cons.1 hcm with rfl | h1
    · decide
    · rcases List.mem_cons.1 h1 with rfl | h2
      · decide
      · rcases List.mem_cons.1 h2 with rfl | h3
        · decide
        · exact (isIdentChar_spec (hn.2 c h3)).1
  have hnm : '=' ∉ '.' :: '.' :: '.' :: n := by
    intro hmem
    rcases List.mem_cons.1 hmem with he | h1
    · exact absurd he.symm (by decide)
    · rcases List.mem_cons.1 h1 with he | h2
      · exact absurd he.symm (by decide)
      · rcases List.mem_cons.1 h2 with he | h3
        · exact absurd he.symm (by decide)
        · exact absurd (hn.2 '=' h3) (by decide)
  simp [cleanParam, htrim, hnm]

/-- The dotted rest marker is no prefix of an identifier token. -/
theorem isPrefixOf_dots_false {n : Str} (h : ∀ c ∈ n, isIdentChar c = true) :
    ("...".data.isPrefixOf n) = false := by
  cases n with
  | nil => rfl
  | cons c cs =>
    have hcne : c ≠ '.' := (isIdentChar_spec (h c (by simp))).2.2.2.2.2.2
    have hbeq : (('.' : Char) == c) = false :=
      beq_eq_false_iff_ne.2 (Ne.symm hcne)
    simp [List.isPrefixOf, hbeq]

/-- Every character of a well-formed parameter form's text is neither a
    closing parenthesis nor a comma. -/
theorem renderTok_chars {tok : ParamTok} (h : TokOk tok) {c : Char}
    (hc : c ∈ renderTok tok) : c ≠ ')' ∧ c ≠ ',' := by
  cases tok with
  | plain n =>
    have hs := isIdentChar_spec (h.2 c hc)
    exact ⟨hs.2.2.1, hs.2.1⟩
  | dflt n r =>
    obtain ⟨hn, hr⟩ := h
    rcases List.mem_append.1 hc with h1 | h1
    · have hs := isIdentChar_spec (hn.2 c h1)
      exact ⟨hs.2.2.1, hs.2.1⟩
    · rcases List.mem_cons.1 h1 with rfl | h2
      · exact ⟨by decide, by decide⟩
      · rcases List.mem_cons.1 h2 with rfl | h3
        · exact ⟨by decide, by decide⟩
        · rcases List.mem_cons.1 h3 with rfl | h4
          · exact ⟨by decide, by decide⟩
          · have hs := isIdentChar_spec (hr.2 c h4)
            exact ⟨hs.2.2.1, hs.2.1⟩
  | destruct square b =>
    cases square <;> simp only [renderTok, if_true, if_false] at hc <;>
    · rcases List.mem_cons.1 hc with rfl | h1
      · exact ⟨by decide, by decide⟩
      · rcases List.mem_append.1 h1 with h2 | h2
        · have hs := isIdentChar_spec (h c h2)
          exact ⟨hs.2.2.1, hs.2.1⟩
        · rcases List.mem_cons.1 h2 with rfl | h3
          · exact ⟨by decide, by decide⟩
          · cases h3
  | rest n =>
    rcases List.mem_cons.1 hc with rfl | h1
    · exact ⟨by decide, by decide⟩
    · rcases List.mem_cons.1 h1 with rfl | h2
      · exact ⟨by decide, by decide⟩
      · rcases List.mem_cons.1 h2 with rfl | h3
        · exact ⟨by decide, by decide⟩
        · have hs := isIdentChar_spec (h.2 c h3)
          exact ⟨hs.2.2.1, hs.2.1⟩

/-- A well-formed parameter form's text starts with a character that is
    not whitespace. -/
theorem renderTok_head (tok : ParamTok) (h : TokOk tok) :
    ∃ d Z, renderTok tok = d :: Z ∧ jsSpace d = false := by
  cases tok with
  | plain n =>
    obtain ⟨n0, n2, rfl⟩ := exists_cons_of_ne_nil h.1
    exact ⟨n0, n2, rfl, (isIdentChar_spec (h.2 n0 (by simp))).1⟩
  | dflt n r =>
    obtain ⟨n0, n2, rfl⟩ := exists_cons_of_ne_nil h.1.1
    exact ⟨n0, n2 ++ ' ' :: '=' :: ' ' :: r, by simp [renderTok],
      (isIdentChar_spec (h.1.2 n0 (by simp))).1⟩
  | destruct square b =>
    cases square
    · exact ⟨'{', b ++ ['}'], rfl, by decide⟩
    · exact ⟨'[', b ++ [']'], rfl, by decide⟩
  | rest n => exact ⟨'.', '.' :: '.' :: n, rfl, by decide⟩

/-- The two filter stages of the extractor turn the cleaned parameter
    forms into exactly the kept names: destructuring entries fall to the
    empty-name filter, rest entries and the input and context names fall
    to the final filter. -/
theorem filters_map_cleanedTok (toks : List ParamTok)
    (h : ∀ tok ∈ toks, TokOk tok) :
    ((toks.map cleanedTok).filter (fun p => !p.isEmpty)).filter
      (fun p => p != "input".data && p != "context".data
        && !("...".data.isPrefixOf p))
    = toks.filterMap tokResult := by
  induction toks with
  | nil => rfl
  | cons tok rest ih =>
    have ih2 := ih (fun u hu => h u (by simp [hu]))
    cases tok with
    | plain n =>
      have hn : PlainIdent n := h (ParamTok.plain n) (by simp)
      have hinem : (!n.isEmpty) = true := by
        obtain ⟨n0, n2, rfl⟩ := exists_cons_of_ne_nil hn.1
        rfl
      by_cases hi : n = "input".data
      · subst hi
        simp [cleanedTok, tokResult, hinem, ih2]
      · by_cases hcx : n = "context".data
        · subst hcx
          simp [cleanedTok, tokResult, hinem, ih2]
        · have hpre := isPrefixOf_dots_false hn.2
          simp [cleanedTok, tokResult, hinem, hi, hcx, hpre, ih2]
    | dflt n r =>
      have hn : PlainIdent n := (h (ParamTok.dflt n r) (by simp)).1
      have hinem : (!n.isEmpty) = true := by
        obtain ⟨n0, n2, rfl⟩ := exists_cons_of_ne_nil hn.1
        rfl
      by_cases hi : n = "input".data
      · subst hi
        simp [cleanedTok, tokResult, hinem, ih2]
      · by_cases hcx : n = "context".data
        · subst hcx
          simp [cleanedTok, tokResult, hinem, ih2]
        · have hpre := isPrefixOf_dots_false hn.2
          simp [cleanedTok, tokResult, hinem, hi, hcx, hpre, ih2]
    | destruct square b =>
      simp [cleanedTok, tokResult, ih2]
    | rest n =>
      have hdots : ("...".data.isPrefixOf ('.' :: '.' :: '.' :: n)) = true := by
        simp [List.isPrefixOf]
      simp [cleanedTok, tokResult, hdots, ih2]

/-- Every character of the joined token text comes from a token or is
    the comma or space of a separator. -/
theorem mem_joinComma {c : Char} : ∀ ts : List Str, c ∈ joinComma ts →
    (∃ u ∈ ts, c ∈ u) ∨ c = ',' ∨ c = ' '
  | [], h => by cases h
  | [t], h => Or.inl ⟨t, by simp, by simpa [joinComma] using h⟩
  | t :: t2 :: ts, h => by
    rw [joinComma] at h
    rcases List.mem_append.1 h with h1 | h1
    · exact Or.inl ⟨t, by simp, h1⟩
    · rcases List.mem_cons.1 h1 with h2 | h2
      · exact Or.inr (Or.inl h2)
      · rcases List.mem_cons.1 h2 with h3 | h3
        · exact Or.inr (Or.inr h3)
        · rcases mem_joinComma (t2 :: ts) h3 with ⟨u, hu, hcu⟩ | h4 | h4
          · exact Or.inl ⟨u, by simp [hu], hcu⟩
          · exact Or.inr (Or.inl h4)
          · exact Or.inr (Or.inr h4)

/-- cleanParam turns each well-formed parameter form's text into its
    cleaned name, with or without the leading space the comma split
    leaves on it. -/
theorem cleanParam_renderTok (tok : ParamTok) (h : TokOk tok) :
    cleanParam (renderTok tok) = cleanedTok tok
    ∧ cleanParam (' ' :: renderTok tok) = cleanedTok tok := by
  have key : cleanParam (renderTok tok) = cleanedTok tok := by
    cases tok with
    | plain n => exact (cleanParam_plainIdent n h.2).1
    | dflt n r => exact cleanParam_default n r h.1 h.2
    | destruct square b =>
      cases square
      · exact (cleanParam_destruct b h).1
      · exact (cleanParam_destruct b h).2
    | rest n => exact cleanParam_rest n h
  refine ⟨key, ?_⟩
  have hts : jsTrim (' ' :: renderTok tok) = jsTrim (renderTok tok) :=
    jsTrim_cons_space _
  calc cleanParam (' ' :: renderTok tok)
      = cleanParam (renderTok tok) := by simp only [cleanParam, hts]
    _ = cleanedTok tok := key

/-- C6: on every transform declaration whose parameter list is a
    declaration-ordered sequence of well-formed parameter forms, the
    extractor returns the declared names in declaration order with
    default-value initializers stripped, destructuring parameters (brace
    or bracket) omitted, rest parameters omitted, and every parameter
    named exactly input or context excluded wherever it appears; and on
    the concrete examples, the plain declaration yields sep and count in
    order, the destructured parameter is omitted leaving nothing, and a
    defaulted parameter next to a rest parameter yields just the bare
    defaulted name. -/
theorem c6_extract_declared_params :
    (∀ toks : List ParamTok, toks ≠ [] → (∀ tok ∈ toks, TokOk tok) →
        extractParameters ("function transform(".data
            ++ (joinComma (toks.map renderTok) ++ ')' :: " {}".data))
          = toks.filterMap tokResult)
    ∧ extractParameters
        "function transform(input, context, sep, count) {}".data
        = ["sep".data, "count".data]
    ∧ extractParameters
        "function transform(input, context, {opt}) {}".data = []
    ∧ extractParameters
        "function transform(input, context, sep = 42, ...rest) {}".data
        = ["sep".data] := by
  refine ⟨?_, by decide, by decide, by decide⟩
  intro toks hne htoks
  obtain ⟨tok0, rest, rfl⟩ : ∃ a t, toks = a :: t := by
    cases toks with
    | nil => exact absurd rfl hne
    | cons a t => exact ⟨a, t, rfl⟩
  simp only [List.map_cons]
  have hchars : ∀ u ∈ renderTok tok0 :: rest.map renderTok,
      ∀ c ∈ u, c ≠ ')' ∧ c ≠ ',' := by
    intro u hu c hc
    rcases List.mem_cons.1 hu with rfl | hu2
    · exact renderTok_chars (htoks tok0 (by simp)) hc
    · obtain ⟨tok, htok, rfl⟩ := List.mem_map.1 hu2
      exact renderTok_chars (htoks tok (by simp [htok])) hc
  have hX : ∀ c ∈ joinComma (renderTok tok0 :: rest.map renderTok), c ≠ ')' := by
    intro c hc
    rcases mem_joinComma _ hc with ⟨u, hu, hcu⟩ | h | h
    · exact (hchars u hu c hcu).1
    · subst h; decide
    · subst h; decide
  have hsearch := searchTransform_function_prefix
    (joinComma (renderTok tok0 :: rest.map renderTok)) " {}".data hX
  obtain ⟨d, Z0, hrend, hd⟩ := renderTok_head tok0 (htoks tok0 (by simp))
  obtain ⟨Z, hZ⟩ : ∃ Z, joinComma (renderTok tok0 :: rest.map renderTok)
      = d :: Z := by
    cases hrest : rest.map renderTok with
    | nil => exact ⟨Z0, by simp [joinComma, hrend]⟩
    | cons a b =>
      exact ⟨Z0 ++ ',' :: ' ' :: joinComma (a :: b), by simp [joinComma, hrend]⟩
  have hblank : (jsTrim (joinComma (renderTok tok0 :: rest.map renderTok))).isEmpty
      = false := by
    rw [hZ]
    cases htr : jsTrim (d :: Z) with
    | nil => exact absurd htr (jsTrim_ne_nil Z hd)
    | cons x xs => rfl
  have hsplit := splitOnChar_joinComma (renderTok tok0) (rest.map renderTok)
    (fun c hc => (hchars (renderTok tok0) (by simp) c hc).2)
    (fun u hu c hc => (hchars u (by simp [hu]) c hc).2)
  have hmap : ((renderTok tok0 :: (rest.map renderTok).map (fun u => ' ' :: u)).map
        cleanParam)
      = cleanedTok tok0 :: rest.map cleanedTok := by
    simp only [List.map_cons, List.map_map]
    rw [(cleanParam_renderTok tok0 (htoks tok0 (by simp))).1]
    congr 1
    refine List.map_congr_left ?_
    intro tok htok
    exact (cleanParam_renderTok tok (htoks tok (by simp [htok]))).2
  have hf := filters_map_cleanedTok (tok0 :: rest) htoks
  rw [List.map_cons] at hf
  simp only [extractParameters]
  rw [hsearch]
  simp only [hblank, Bool.false_eq_true, if_false]
  rw [hsplit, hmap, hf]

/-- Witness for C6: a declaration holding the two implicit names, a
    defaulted identifier and a rest parameter keeps exactly the bare
    defaulted name. -/
theorem c6_extract_declared_params_witness :
    extractParameters ("function transform(".data
        ++ (joinComma ([ParamTok.plain "input".data, ParamTok.plain "context".data,
              ParamTok.dflt "sep".data "42".data,
              ParamTok.rest "more".data].map renderTok)
          ++ ')' :: " {}".data))
      = [ParamTok.plain "input".data, ParamTok.plain "context".data,
          ParamTok.dflt "sep".data "42".data,
          ParamTok.rest "more".data].filterMap tokResult :=
  c6_extract_declared_params.1
    [ParamTok.plain "input".data, ParamTok.plain "context".data,
      ParamTok.dflt "sep".data "42".data, ParamTok.rest "more".data]
    (by decide) (by decide)

end VCode
